import Mathlib

/-!
Verification of the MRATS meeting recorder / processing pipeline against its
natural-language specification.  The Python sources (`processing_pipeline.py`,
`meeting_recorder.py`) are shallowly embedded below: pure string processing is
translated directly, stateful worker loops become explicit state passing, the
polling loops become fuel-indexed recursion (one fuel unit per 200 ms poll
iteration), and every external effect (subprocess exit, HTTP response, file
system observation) is an explicit oracle argument.
-/

namespace MRATS

/-! Python string primitives -/

/-- Whitespace set of Python str.strip: space, tab, newline, carriage
return, vertical tab, form feed. -/
def isPyWS (c : Char) : Bool :=
  c = ' ' || c = '\t' || c = '\n' || c = '\r' || c = Char.ofNat 11 || c = Char.ofNat 12

/-- Python str.strip on a character list. -/
def pyStripList (l : List Char) : List Char :=
  ((l.dropWhile isPyWS).reverse.dropWhile isPyWS).reverse

/-- Python str.strip. -/
def pyStrip (s : String) : String := ⟨pyStripList s.data⟩

/-- Does the pattern occur as a substring starting at index i? -/
def matchesAt (pat hay : List Char) (i : Nat) : Bool :=
  decide ((hay.drop i).take pat.length = pat)

/-- All indices (in increasing order) at which pat occurs in hay. -/
def strFindAll (pat hay : List Char) : List Nat :=
  (List.range hay.length).filter (fun i => matchesAt pat hay i)

/-! Embedding of _extract_tag (processing_pipeline.py lines 1002-1009)

`re.search(rf"<<{tag}>>\n?(.*?)\n?<</{tag}>>", text, DOTALL | IGNORECASE)`:
the leftmost opening tag that is followed by a closing tag matches, the lazy
group stops at the first closing tag after it, and the group is stripped.
Because the group is stripped, the optional single newline consumed on either
side by the regex does not change the result, so the embedding takes the full
text between the tags and strips it.  Case-insensitive matching is modelled by
lowering both the text and the tags before searching. -/

def tagOpenChars (tag : String) : List Char :=
  ("<<" ++ tag ++ ">>").data.map Char.toLower

def tagCloseChars (tag : String) : List Char :=
  ("<</" ++ tag ++ ">>").data.map Char.toLower

def extractTag (text tag : String) : String :=
  let orig := text.data
  let low := orig.map Char.toLower
  let op := tagOpenChars tag
  let cl := tagCloseChars tag
  let closes := strFindAll cl low
  match (strFindAll op low).find? (fun i => closes.any (fun j => i + op.length ≤ j)) with
  | none => ""
  | some i =>
    match closes.find? (fun j => i + op.length ≤ j) with
    | none => ""
    | some j => ⟨pyStripList ((orig.drop (i + op.length)).take (j - (i + op.length)))⟩

/-! File writes

Every artifact write in the sources is performed with a plain
`open(path, 'w')` followed by `write` (or `json.dump`); the write method is
recorded so that the atomicity claim can be settled. -/

inductive WMethod where
  | direct
  | tempRename
deriving DecidableEq, Repr

structure FWrite where
  path : String
  content : String
  method : WMethod
deriving DecidableEq, Repr

/-- Read a file from a chronological write log: the last write wins, a name
never written is absent. -/
def fileGet (writes : List FWrite) (name : String) : Option String :=
  ((writes.filter (fun w => w.path = name)).map (fun w => w.content)).getLast?

/-! Embedding of summarize (processing_pipeline.py lines 931-1000)

The HTTP interaction with the Ollama service is an oracle of type
`Except Unit String`: `.error` covers connection errors, timeouts, non-2xx
statuses (raise_for_status) and malformed JSON — every exception raised before
the tagged response text is available; `.ok resp` is the `response` field of a
successful call. -/

structure SumOut where
  /-- The value `summarize` returns (the per-segment summary, or "" on
  failure / empty transcript). -/
  ret : String
  /-- self.rolling_summary_text after the call. -/
  rolling : Option String
  /-- Files written by the call. -/
  writes : List FWrite
  /-- Whether the call assigned self.rolling_summary_text. -/
  updated : Bool
deriving DecidableEq, Repr

/-- Header of the per-segment summary file. -/
def segHeader (segIndex : Option String) : String :=
  match segIndex with
  | some i => "## Segment " ++ i ++ " Summary\n\n"
  | none => ""

/-- The branch of `summarize` taken on a successful HTTP call (parse tags,
apply fallbacks, update the rolling text, write files when a segment path was
given). -/
def summarizeOk (rolling : Option String) (segPath : Option String)
    (segIndex : Option String) (respText : String) : SumOut :=
  let prevRoll := rolling.getD ""
  let ur0 := extractTag respText "ROLLING_SUMMARY"
  let ss0 := extractTag respText "SEGMENT_SUMMARY"
  let updatedRoll := if ur0 = "" ∧ prevRoll ≠ "" then prevRoll else ur0
  let segSummary := if ss0 = "" then respText else ss0
  let newRoll :=
    if updatedRoll ≠ "" then updatedRoll
    else if segSummary ≠ "" then segSummary
    else prevRoll
  let writes : List FWrite :=
    match segPath with
    | none => []
    | some base =>
      [⟨base ++ "_summary.md", segHeader segIndex ++ pyStrip segSummary ++ "\n", .direct⟩,
       ⟨"rolling_summary.md", pyStrip newRoll ++ "\n", .direct⟩]
  ⟨segSummary, some newRoll, writes, true⟩

def summarize (rolling : Option String) (segPath : Option String)
    (segIndex : Option String) (transcript : String)
    (resp : Except Unit String) : SumOut :=
  if pyStrip transcript = "" then ⟨"", rolling, [], false⟩
  else
    match resp with
    | .error _ => ⟨"", rolling, [], false⟩
    | .ok respText => summarizeOk rolling segPath segIndex respText

/-! Embedding of _sum_worker and _process_summary_batch (processing_pipeline.py 142-200)

The worker is a single consumer; its sequential behaviour is a fold over the
incoming jobs.  One oracle is consumed per `summarize` call (one per batch).
`_process_summary_batch` calls `self.summarize(None, batch_text, first_meta)` —
with segment_path `None` — and then unconditionally writes
`batch_{count:03d}_summary.md`.  In the `stop_recording` flow `self.running`
stays true, so the loop never exits and leftovers of a partial batch are never
flushed; the modelled run therefore covers exactly the in-loop batch
processing. -/

structure Job where
  transcript : String
  segIndex : String
deriving DecidableEq, Repr

/-- Zero-padded batch index as produced by the format f-string 03d. -/
def pad3 (n : Nat) : String :=
  if n < 10 then "00" ++ toString n
  else if n < 100 then "0" ++ toString n
  else toString n

def batchName (n : Nat) : String := "batch_" ++ pad3 n ++ "_summary.md"

structure WState where
  rolling : Option String
  writes : List FWrite
  batchSummaries : List String
  batchCount : Nat
  /-- Number of assignments to self.rolling_summary_text so far. -/
  updates : Nat
deriving DecidableEq, Repr

def WState.init : WState := ⟨none, [], [], 0, 0⟩

def processBatch (st : WState) (batch : List Job) (resp : Except Unit String) : WState :=
  let batchText := String.intercalate "\n\n" (batch.map (fun j => j.transcript))
  let out := summarize st.rolling none none batchText resp
  { rolling := out.rolling
    writes := st.writes ++ out.writes ++ [⟨batchName st.batchCount, pyStrip out.ret ++ "\n", .direct⟩]
    batchSummaries := st.batchSummaries ++ [out.ret]
    batchCount := st.batchCount + 1
    updates := st.updates + (if out.updated then 1 else 0) }

/-- The worker while-loop: jobs are appended to the pending batch; when the
batch reaches `batchSize` it is processed with the next oracle.  An exhausted
oracle list stops the run (never reached under the theorems' hypotheses). -/
def workerSteps (batchSize : Nat) (st : WState) (pending : List Job) :
    List Job → List (Except Unit String) → WState
  | [], _ => st
  | j :: rest, oracles =>
    let pending' := pending ++ [j]
    if batchSize ≤ pending'.length then
      match oracles with
      | [] => st
      | o :: os => workerSteps batchSize (processBatch st pending' o) [] rest os
    else workerSteps batchSize st pending' rest oracles

def workerRun (batchSize : Nat) (jobs : List Job) (oracles : List (Except Unit String)) : WState :=
  workerSteps batchSize WState.init [] jobs oracles

/-! Embedding of drain / generate_final_transcript / _synthesize_final_summary
(processing_pipeline.py 202-275) and the tail of stop_recording
(meeting_recorder.py 309-391).

`generate_final_transcript` reads every `*_transcript.txt` in sorted order,
strips each, and unconditionally writes their blank-line join (plus a trailing
newline) to `final_transcript.txt`; the parallel `final_transcript.json` write
does not interact with any claim and is omitted.  `drain` then synthesizes
`final_summary.md` from the buffered batch summaries when that list is
non-empty (oracle `synth`; on an HTTP error nothing is written).  After
`drain` returns, `stop_recording` copies `rolling_summary.md` over
`final_summary.md` — but only if that file exists on disk. -/

def finalTranscriptTxt (transcripts : List String) : String :=
  String.intercalate "\n\n" (transcripts.map pyStrip) ++ "\n"

def drainWrites (transcripts : List String) (batchSummaries : List String)
    (synth : Except Unit String) : List FWrite :=
  [⟨"final_transcript.txt", finalTranscriptTxt transcripts, .direct⟩] ++
  (if batchSummaries ≠ [] then
     match synth with
     | .ok r => [⟨"final_summary.md", pyStrip r ++ "\n", .direct⟩]
     | .error _ => []
   else [])

/-- File writes performed between the start of `drain()` and the return of
`stop_recording()`: the drain-time writes followed by the conditional
rolling-summary copy. `workerWrites` are the files the summarization worker
wrote earlier in the session (the session directory is fresh at start, so
these are the only candidates for `rolling_summary.md`). -/
def stopRecordingWrites (workerWrites : List FWrite) (transcripts batchSummaries : List String)
    (synth : Except Unit String) : List FWrite :=
  let files1 := workerWrites ++ drainWrites transcripts batchSummaries synth
  files1 ++
    (match fileGet files1 "rolling_summary.md" with
     | some c => [⟨"final_summary.md", c, .direct⟩]
     | none => [])

/-- _write_session_metadata (meeting_recorder.py 118-139): a plain
`open(path, 'w')` + `json.dump`; the serialized content is a parameter. -/
def sessionMetadataWrite (content : String) : FWrite :=
  ⟨"metadata.json", content, .direct⟩

/-! Embedding of the drain loop (processing_pipeline.py 235-241)

`drain` polls `while self.running and (not self.is_idle() or not
self.transcribe_queue.empty() or not self.summarize_queue.empty())`.  The
concurrent workers are modelled sequentially: between two evaluations of the
guard one queued item makes progress (a transcription job becomes a
summarization job; a summarization job completes).  The busy flags are false
at every guard evaluation of this sequential model. -/

structure PipeState where
  running : Bool
  txBusy : Bool
  sumBusy : Bool
  txQueue : List String
  sumQueue : List String
deriving DecidableEq, Repr

def pipeStep (st : PipeState) : PipeState :=
  match st.txQueue with
  | seg :: rest => { st with txQueue := rest, sumQueue := st.sumQueue ++ [seg] }
  | [] =>
    match st.sumQueue with
    | _ :: rest => { st with sumQueue := rest }
    | [] => st

/-- The drain polling loop; `none` when the fuel (number of polls) runs out
before the guard turns false. -/
def drainLoop : Nat → PipeState → Option PipeState
  | 0, _ => none
  | fuel + 1, st =>
    if st.running ∧ (st.txBusy ∨ st.sumBusy ∨ st.txQueue ≠ [] ∨ st.sumQueue ≠ []) then
      drainLoop fuel (pipeStep st)
    else some st

/-! Embedding of _refine_transcript_with_json (processing_pipeline.py 485-520)

A parsed sub-segment carries millisecond offsets (both JSON shapes —
`offsets.from/to` in ms and `start`/`end` in seconds — normalize to ms; inputs
of millisecond precision convert exactly).  `local_t0 = max(0, t0 -
prev_tail_ms)` is Nat-truncated subtraction.  A sub-segment is dropped when
the probed duration is positive and its adjusted start reaches
`dur_ms + 50`, and also when its stripped text is empty; if nothing is kept
the raw TXT fallback is returned. -/

structure SubSeg where
  t0 : Nat
  t1 : Nat
  text : String
deriving DecidableEq, Repr

def refineKeep (prevTail durMs : Nat) (s : SubSeg) : Bool :=
  !(decide (0 < durMs) && decide (durMs + 50 ≤ s.t0 - prevTail)) && decide (pyStrip s.text ≠ "")

def refineTranscript (segs : List SubSeg) (prevTail durMs : Nat) (fallback : String) : String :=
  let keep := (segs.filter (refineKeep prevTail durMs)).map (fun s => pyStrip s.text)
  if keep = [] then fallback else String.intercalate "\n" keep

/-- The final content of the TXT artifact after refinement
(processing_pipeline.py 730-736): overwritten exactly when the refined text is
non-empty and differs from the raw text. -/
def cliTxtFinal (raw refined : String) : String :=
  if refined ≠ "" ∧ refined ≠ raw then refined else raw

/-! Embedding of _transcribe_with_cli (processing_pipeline.py 668-740)

The function issues exactly one `subprocess.run` of the whisper CLI
(`check=True`); a `CalledProcessError` is logged and "" is returned with no
retry.  The oracle `attempts k` gives the outcome the k-th invocation would
have: `.error` for a non-zero exit (or missing/empty TXT artifact), `.ok raw`
for a successful run whose stabilized TXT artifact reads `raw`.  `jsonSegs`
is the parsed JSON artifact when present.  The result pairs the returned
transcript with the number of transcriber invocations actually performed. -/

def transcribeWithCli (attempts : Nat → Except Unit String)
    (jsonSegs : Option (List SubSeg)) (prevTail durMs : Nat) : String × Nat :=
  match attempts 0 with
  | .error _ => ("", 1)
  | .ok rawTxt =>
    if pyStrip rawTxt = "" then ("", 1)
    else
      match jsonSegs with
      | some segs =>
        let refined := refineTranscript segs prevTail durMs rawTxt
        (cliTxtFinal rawTxt refined, 1)
      | none => (rawTxt, 1)

/-! Embedding of _transcribe_with_server (processing_pipeline.py 742-929)

The parsed JSON body of the whisper server response, in its two supported
shapes plus the unrecognized case.  Times are modelled in milliseconds (the
server reports seconds; millisecond-precision values convert exactly, and the
3-second truncation threshold becomes 3000 ms). -/

inductive ServerResp where
  | segs (l : List SubSeg)
  | text (t : String)
  | other
deriving DecidableEq, Repr

/-- Text extracted from the retry response (lines 879-884). -/
def retryText : ServerResp → String
  | .text t => pyStrip t
  | .segs l => String.intercalate "\n"
      ((l.filter (fun s => pyStrip s.text ≠ "")).map (fun s => pyStrip s.text))
  | .other => ""

structure ServerOut where
  ret : String
  retried : Bool
  writes : List FWrite
deriving DecidableEq, Repr

/-- `resp` is the parsed first response; `retry` is the parsed response of the
retry request when it returns HTTP 200 (`none` = failed/non-200; the retry is
only actually issued when `retried` is true in the output).  `wavMs` is the
probed duration of the original segment, `prevTail` the pre-roll carried in
ctx_info (ctx_info is a non-empty dict, hence always truthy). -/
def transcribeWithServer (resp : ServerResp) (wavMs prevTail : Nat)
    (retry : Option ServerResp) : ServerOut :=
  let segList : List SubSeg :=
    match resp with
    | .segs l => (l.filter (fun s => pyStrip s.text ≠ "")).map
        (fun s => ⟨s.t0, s.t1, pyStrip s.text⟩)
    | .text t => if pyStrip t ≠ "" then [⟨0, wavMs, pyStrip t⟩] else []
    | .other => []
  let raw0 : String :=
    match resp with
    | .segs _ => String.intercalate "\n" (segList.map (fun s => s.text))
    | .text t => pyStrip t
    | .other => ""
  let writes0 : List FWrite := [⟨"transcript.json", "segments json", .direct⟩,
    ⟨"transcript.txt", raw0, .direct⟩]
  -- refinement (lines 841-849): ctx_info is truthy, so it runs iff segments ≠ []
  let refined := refineTranscript segList prevTail wavMs raw0
  let overwrite1 := segList ≠ [] ∧ refined ≠ "" ∧ refined ≠ raw0
  let raw1 := if overwrite1 then refined else raw0
  let writes1 := writes0 ++ (if overwrite1 then [⟨"transcript.txt", raw1, .direct⟩] else [])
  -- truncation check (lines 851-912): segments all carry an end key
  if segList ≠ [] then
    let lastEnd := (segList.map (fun s => s.t1)).max?.getD 0
    let lastEff := lastEnd - prevTail
    let suspected := wavMs ≠ 0 ∧ lastEff ≠ 0 ∧ lastEff + 3000 < wavMs
    if suspected then
      match retry with
      | some rr =>
        let rt := retryText rr
        if rt ≠ "" ∧ raw1.length < rt.length then
          ⟨rt, true, writes1 ++ [⟨"transcript.txt", rt, .direct⟩]⟩
        else ⟨raw1, true, writes1⟩
      | none => ⟨raw1, true, writes1⟩
    else ⟨raw1, false, writes1⟩
  else ⟨raw1, false, writes1⟩

/-! Embedding of _wait_for_stable_file (meeting_recorder.py 215-275)

The polling loop is discretized at its own cadence: one fuel unit / one tick
per loop iteration (the loop sleeps 0.2 s once per iteration).  `fs t` is the
observed file state at tick t (`none` = missing, `some size` = size in
bytes); `probe t` is the ffprobe duration at tick t in milliseconds (`none` =
probe failure).  `stableT` and the timeout are in ticks, `expectedMs` in
milliseconds (0 encodes a falsy expected_duration).  The Python comparison
`actual_duration >= expected_duration - 2.0` becomes
`expectedMs ≤ dur + 2000`.  The state threaded through the loop is
`last_size` (`none` for the initial -1) and `stable_since` (a tick).
The result pairs the boolean with the tick at which the function returned. -/

/-- One loop iteration at tick t; `recur` continues the loop with the
remaining fuel. -/
def waitBody (fs : Nat → Option Nat) (probe : Nat → Option Nat)
    (minSize stableT expectedMs : Nat) (isSeg : Bool)
    (recur : Nat → Option Nat → Option Nat → Bool × Nat)
    (t : Nat) (lastSize stableSince : Option Nat) : Bool × Nat :=
  match fs t with
  | none => recur (t + 1) lastSize stableSince
  | some size =>
    if size < minSize then
      recur (t + 1) lastSize stableSince
    else
      let ss' : Option Nat :=
        if lastSize = some size then
          match stableSince with
          | none => some t
          | some s0 => some s0
        else none
      let sizeStable : Bool :=
        decide (lastSize = some size) &&
          (match stableSince with
           | none => false
           | some s0 => decide (stableT ≤ t - s0))
      if sizeStable then
        if isSeg ∧ expectedMs ≠ 0 then
          match probe t with
          | none => (true, t)
          | some dur =>
            if expectedMs ≤ dur + 2000 then (true, t)
            else recur (t + 1) (some size) none
        else if isSeg then
          recur (t + 1) (some size) ss'
        else (true, t)
      else recur (t + 1) (some size) ss'

def waitAux (fs : Nat → Option Nat) (probe : Nat → Option Nat)
    (minSize stableT expectedMs : Nat) (isSeg : Bool) :
    Nat → Nat → Option Nat → Option Nat → Bool × Nat
  | 0, t, _, _ => (false, t)
  | fuel + 1, t, lastSize, stableSince =>
    waitBody fs probe minSize stableT expectedMs isSeg
      (waitAux fs probe minSize stableT expectedMs isSeg fuel) t lastSize stableSince

def waitForStableFile (fs : Nat → Option Nat) (probe : Nat → Option Nat)
    (minSize stableT timeoutT expectedMs : Nat) (isSeg : Bool) : Bool × Nat :=
  waitAux fs probe minSize stableT expectedMs isSeg timeoutT 0 none none

/-- The conditions that hold at the tick `te` at which the gate returns true:
the file exists with size ≥ min_size, the same size was observed at every
poll with size ≥ min_size throughout a dwell window of length ≥ stable_time,
and for segment files with an expected duration the probe either failed (the
size-only fallback) or reported a duration within the 2 s tolerance. -/
def StableAt (fs probe : Nat → Option Nat) (minSize stableT expectedMs : Nat)
    (isSeg : Bool) (te : Nat) : Prop :=
  ∃ s, fs te = some s ∧ minSize ≤ s ∧
    ∃ s0, s0 ≤ te ∧ stableT ≤ te - s0 ∧ fs s0 = some s ∧
      (∀ u sz, s0 ≤ u → u ≤ te → fs u = some sz → minSize ≤ sz → sz = s) ∧
      (isSeg = true → expectedMs ≠ 0 →
        probe te = none ∨ ∃ d, probe te = some d ∧ expectedMs ≤ d + 2000)

/-- Loop invariant of the gate: whenever stable_since is set, last_size holds
the size that has been seen at every qualifying poll since then. -/
def WaitInv (fs : Nat → Option Nat) (minSize t : Nat)
    (lastSize stableSince : Option Nat) : Prop :=
  ∀ s0, stableSince = some s0 →
    s0 ≤ t ∧ ∃ L, lastSize = some L ∧ minSize ≤ L ∧ fs s0 = some L ∧
      ∀ u sz, s0 ≤ u → u < t → fs u = some sz → minSize ≤ sz → sz = L

/-- Oracle for the C3 scenario: the first transcriber invocation fails, a
second one would succeed. -/
def cliFailOnce : Nat → Except Unit String :=
  fun k => if k = 0 then Except.error () else Except.ok "hello"

/-- File-size trace for the C4 counterexample: 2000 bytes at every poll
except a dip to 5 bytes (below min_size) at tick 2. -/
def fsDip : Nat → Option Nat := fun t => if t = 2 then some 5 else some 2000

/-- Canned summarizer response carrying both tags. -/
def tagResp : String :=
  "<<ROLLING_SUMMARY>>\nroll one\n<</ROLLING_SUMMARY>>\n<<SEGMENT_SUMMARY>>\nseg one\n<</SEGMENT_SUMMARY>>"

/-! Helper lemmas -/

theorem summarize_none_writes (r : Option String) (i : Option String) (t : String)
    (o : Except Unit String) : (summarize r none i t o).writes = [] := by
  unfold summarize
  split
  · rfl
  · cases o <;> rfl

theorem summarize_error_eq (r : Option String) (sp si : Option String) (t : String)
    (u : Unit) : summarize r sp si t (Except.error u) = ⟨"", r, [], false⟩ := by
  unfold summarize
  split
  · rfl
  · rfl

theorem summarize_none_ok_updated (r : Option String) (i : Option String) (t s : String)
    (h : pyStrip t ≠ "") : (summarize r none i t (Except.ok s)).updated = true := by
  unfold summarize
  rw [if_neg h]
  rfl

theorem intercalate_single (a : String) : String.intercalate "\n\n" [a] = a := by
  simp [String.intercalate, String.intercalate.go]

theorem batchName_head (k : Nat) : (batchName k).data.head? = some 'b' := by
  show ((("batch_" ++ pad3 k) ++ "_summary.md")).data.head? = some 'b'
  rw [String.data_append, String.data_append, List.head?_append, List.head?_append]
  rfl

theorem batchName_ne_rolling (k : Nat) : batchName k ≠ "rolling_summary.md" := by
  intro h
  have h2 : (batchName k).data.head? = ("rolling_summary.md").data.head? := by rw [h]
  rw [batchName_head k] at h2
  simp at h2

theorem batchName_ne_final_summary (k : Nat) : batchName k ≠ "final_summary.md" := by
  intro h
  have h2 : (batchName k).data.head? = ("final_summary.md").data.head? := by rw [h]
  rw [batchName_head k] at h2
  simp at h2

theorem batchName_ne_final_transcript (k : Nat) : batchName k ≠ "final_transcript.txt" := by
  intro h
  have h2 : (batchName k).data.head? = ("final_transcript.txt").data.head? := by rw [h]
  rw [batchName_head k] at h2
  simp at h2

/-- Every file the summarization worker writes is a batch summary file
written directly: `summarize` is always called with segment_path None, so the
per-segment and rolling summary writes never execute. -/
theorem workerSteps_writes_inv (bs : Nat) (jobs : List Job)
    (oracles : List (Except Unit String)) (st : WState) (pending : List Job)
    (hst : ∀ w ∈ st.writes, (∃ k, w.path = batchName k) ∧ w.method = WMethod.direct) :
    ∀ w ∈ (workerSteps bs st pending jobs oracles).writes,
      (∃ k, w.path = batchName k) ∧ w.method = WMethod.direct := by
  induction jobs generalizing st pending oracles with
  | nil => simpa [workerSteps] using hst
  | cons j rest ih =>
    rw [workerSteps.eq_def]
    simp only
    split
    · cases oracles with
      | nil => simpa using hst
      | cons o os =>
        refine ih _ _ _ ?_
        intro w hw
        simp only [processBatch, summarize_none_writes, List.append_nil, List.mem_append] at hw
        rcases hw with hw | hw
        · exact hst w hw
        · simp only [List.mem_singleton] at hw
          subst hw
          exact ⟨⟨st.batchCount, rfl⟩, rfl⟩
    · exact ih _ _ _ hst

theorem processBatch_single (st : WState) (j : Job) (s : String)
    (h : pyStrip j.transcript ≠ "") :
    (processBatch st [j] (Except.ok s)).updates = st.updates + 1 ∧
    (processBatch st [j] (Except.ok s)).writes.map (fun w => w.path) =
      st.writes.map (fun w => w.path) ++ [batchName st.batchCount] ∧
    (processBatch st [j] (Except.ok s)).batchCount = st.batchCount + 1 ∧
    (processBatch st [j] (Except.ok s)).batchSummaries ≠ [] := by
  have hbt : String.intercalate "\n\n" ([j].map (fun x => x.transcript)) = j.transcript := by
    simp only [List.map_cons, List.map_nil]
    exact intercalate_single _
  refine ⟨?_, ?_, ?_, ?_⟩
  · simp only [processBatch, hbt, summarize_none_ok_updated st.rolling none j.transcript s h,
      if_true]
  · simp only [processBatch, hbt, summarize_none_writes, List.append_nil, List.map_append,
      List.map_cons, List.map_nil]
  · simp only [processBatch]
  · simp only [processBatch]
    intro hcon
    exact List.append_ne_nil_of_right_ne_nil _ (by simp) hcon

/-- With batch size 1 (the default), each non-empty-transcript job processed
with a successful summarizer response produces exactly one batch summary file
and one assignment of the in-memory rolling summary. -/
theorem workerSteps_one (jobs : List Job) (oracles : List (Except Unit String)) (st : WState)
    (hlen : jobs.length = oracles.length)
    (hne : ∀ j ∈ jobs, pyStrip j.transcript ≠ "")
    (hok : ∀ o ∈ oracles, ∃ s, o = Except.ok s) :
    (workerSteps 1 st [] jobs oracles).updates = st.updates + jobs.length ∧
    (workerSteps 1 st [] jobs oracles).writes.map (fun w => w.path) =
      st.writes.map (fun w => w.path) ++
        (List.range jobs.length).map (fun k => batchName (st.batchCount + k)) ∧
    (workerSteps 1 st [] jobs oracles).batchCount = st.batchCount + jobs.length := by
  induction jobs generalizing oracles st with
  | nil =>
    cases oracles with
    | nil => simp [workerSteps]
    | cons o os => simp at hlen
  | cons j rest ih =>
    cases oracles with
    | nil => simp at hlen
    | cons o os =>
      obtain ⟨s, rfl⟩ := hok o (by simp)
      rw [workerSteps.eq_def]
      simp only [List.nil_append, List.length_cons, List.length_nil, Nat.zero_add, le_refl,
        if_true]
      have hj : pyStrip j.transcript ≠ "" := hne j (by simp)
      obtain ⟨hu, hw, hc, _⟩ := processBatch_single st j s hj
      have hlen' : rest.length = os.length := by simpa using hlen
      have hne' : ∀ x ∈ rest, pyStrip x.transcript ≠ "" := fun x hx => hne x (by simp [hx])
      have hok' : ∀ o ∈ os, ∃ s, o = Except.ok s := fun o ho => hok o (by simp [ho])
      obtain ⟨ihu, ihw, ihc⟩ := ih os (processBatch st [j] (Except.ok s)) hlen' hne' hok'
      refine ⟨?_, ?_, ?_⟩
      · rw [ihu, hu]
        omega
      · rw [ihw, hw, hc, List.range_succ_eq_map]
        simp only [List.map_cons, List.map_map, List.append_assoc, Nat.add_zero,
          List.singleton_append]
        congr 2
        apply List.map_congr_left
        intro k _
        simp only [Function.comp_apply]
        congr 1
        omega
      · rw [ihc, hc]
        omega

theorem workerRun_writes_inv (bs : Nat) (jobs : List Job)
    (oracles : List (Except Unit String)) :
    ∀ w ∈ (workerRun bs jobs oracles).writes,
      (∃ k, w.path = batchName k) ∧ w.method = WMethod.direct := by
  apply workerSteps_writes_inv
  intro w hw
  exact absurd hw (by simp [WState.init])

theorem fileGet_none_of_paths (l : List FWrite) (n : String)
    (h : ∀ w ∈ l, w.path ≠ n) : fileGet l n = none := by
  unfold fileGet
  rw [List.filter_eq_nil_iff.mpr (by intro w hw; simpa using h w hw)]
  rfl

theorem fileGet_concat_eq (a : List FWrite) (w : FWrite) (n : String) (h : w.path = n) :
    fileGet (a ++ [w]) n = some w.content := by
  unfold fileGet
  rw [List.filter_append]
  have : List.filter (fun x => x.path = n) [w] = [w] := by simp [h]
  rw [this, List.map_append]
  exact List.getLast?_concat _

theorem fileGet_append_right_none (a b : List FWrite) (n : String)
    (h : ∀ w ∈ b, w.path ≠ n) : fileGet (a ++ b) n = fileGet a n := by
  unfold fileGet
  have hb : List.filter (fun x => decide (x.path = n)) b = [] :=
    List.filter_eq_nil_iff.mpr (by intro w hw; simpa using h w hw)
  rw [List.filter_append, hb, List.append_nil]

theorem drainWrites_paths (ts bsums : List String) (synth : Except Unit String) :
    ∀ w ∈ drainWrites ts bsums synth,
      (w.path = "final_transcript.txt" ∨ w.path = "final_summary.md") ∧
        w.method = WMethod.direct := by
  intro w hw
  unfold drainWrites at hw
  rcases List.mem_append.mp hw with h | h
  · simp only [List.mem_singleton] at h
    subst h
    exact ⟨Or.inl rfl, rfl⟩
  · split at h
    · split at h
      · simp only [List.mem_singleton] at h
        subst h
        exact ⟨Or.inr rfl, rfl⟩
      · simp at h
    · simp at h

theorem summarize_ok_eq (r sp si : Option String) (t respText : String)
    (ht : pyStrip t ≠ "") :
    summarize r sp si t (Except.ok respText) = summarizeOk r sp si respText := by
  unfold summarize
  rw [if_neg ht]

theorem summarizeOk_rolling_retained (rolling sp si : Option String) (resp : String)
    (hR : extractTag resp "ROLLING_SUMMARY" = "") (hprev : rolling.getD "" ≠ "") :
    (summarizeOk rolling sp si resp).rolling = some (rolling.getD "") := by
  simp only [summarizeOk, hR]
  simp [hprev]

theorem summarizeOk_seg_fallback (rolling sp si : Option String) (resp : String)
    (hS : extractTag resp "SEGMENT_SUMMARY" = "") :
    (summarizeOk rolling sp si resp).ret = resp := by
  simp only [summarizeOk, hS]
  simp

theorem summarizeOk_no_prior (rolling sp si : Option String) (resp : String)
    (hR : extractTag resp "ROLLING_SUMMARY" = "") (hprev : rolling.getD "" = "")
    (hresp : resp ≠ "") :
    (summarizeOk rolling sp si resp).rolling = some ((summarizeOk rolling sp si resp).ret) ∧
      (summarizeOk rolling sp si resp).ret ≠ "" := by
  have hseg : (if extractTag resp "SEGMENT_SUMMARY" = "" then resp
      else extractTag resp "SEGMENT_SUMMARY") ≠ "" := by
    split
    · exact hresp
    · assumption
  constructor
  · simp only [summarizeOk, hR]
    simp [hprev, hseg]
  · simp only [summarizeOk]
    exact hseg

theorem extractTag_single (text tag : String) (i j : Nat)
    (ho : strFindAll (tagOpenChars tag) (text.data.map Char.toLower) = [i])
    (hc : strFindAll (tagCloseChars tag) (text.data.map Char.toLower) = [j])
    (hij : i + (tagOpenChars tag).length ≤ j) :
    extractTag text tag =
      ⟨pyStripList ((text.data.drop (i + (tagOpenChars tag).length)).take
        (j - (i + (tagOpenChars tag).length)))⟩ := by
  simp only [extractTag]
  rw [ho, hc]
  simp only [List.find?_cons, List.find?_nil, List.any_cons, List.any_nil, Bool.or_false,
    decide_eq_true hij]

/-! Claims -/

/-- C10: whenever the HTTP request of `summarize` raises (connection error,
timeout, non-2xx status — the `.error` oracle), `summarize` returns the empty
string, the in-memory rolling summary is unchanged, and nothing is written. -/
theorem c10_summarize_error_no_update (rolling segPath segIndex : Option String)
    (transcript : String) (u : Unit) :
    summarize rolling segPath segIndex transcript (Except.error u) = ⟨"", rolling, [], false⟩ :=
  summarize_error_eq rolling segPath segIndex transcript u

/-- C3, counterexample: the claim states a failed transcriber invocation is
retried (up to 2 attempts) before yielding empty.  With an oracle whose first
invocation fails and whose second would succeed with "hello",
`_transcribe_with_cli` performs exactly one invocation and yields the empty
transcript — there is no retry in the code. -/
theorem c3_counterexample :
    cliFailOnce 0 = Except.error () ∧ cliFailOnce 1 = Except.ok "hello" ∧
      transcribeWithCli cliFailOnce none 300 5000 = ("", 1) :=
  ⟨rfl, rfl, rfl⟩

/-- C3 as amended: a transcriber invocation that fails (non-zero exit) is not
retried: `_transcribe_with_cli` logs and yields the empty transcript after a
single invocation, and the pipeline continues. -/
theorem c3_no_retry_on_failure (f : Nat → Except Unit String)
    (js : Option (List SubSeg)) (pt d : Nat) (u : Unit) (h : f 0 = Except.error u) :
    transcribeWithCli f js pt d = ("", 1) := by
  unfold transcribeWithCli
  rw [h]

theorem c3_no_retry_on_failure_witness :
    transcribeWithCli cliFailOnce none 300 5000 = ("", 1) :=
  c3_no_retry_on_failure cliFailOnce none 300 5000 () rfl

/-- C5: for a refinement pass with pre-roll P over a segment whose probed
duration is D ms (D > 0): every sub-segment whose adjusted start (clamped
original start − P) reaches D + 50 is dropped, every retained sub-segment has
adjusted start < D + 50 (and ≥ 0, as the clamp is Nat subtraction), the
retained stripped texts are newline-joined, and the TXT artifact ends up
different from the raw text exactly when the refined text is non-empty and
differs from it. -/
theorem c5_refine_trimming (segs : List SubSeg) (P D : Nat) (fb : String) (hD : 0 < D) :
    (∀ s ∈ segs, D + 50 ≤ s.t0 - P → refineKeep P D s = false) ∧
    (∀ s ∈ segs.filter (refineKeep P D), s.t0 - P < D + 50) ∧
    (segs.filter (refineKeep P D) ≠ [] →
      refineTranscript segs P D fb =
        String.intercalate "\n" ((segs.filter (refineKeep P D)).map (fun s => pyStrip s.text))) ∧
    (∀ raw refined : String, cliTxtFinal raw refined ≠ raw ↔ refined ≠ "" ∧ refined ≠ raw) := by
  refine ⟨?_, ?_, ?_, ?_⟩
  · intro s _ h
    simp [refineKeep, hD, h]
  · intro s hs
    have hk := (List.mem_filter.mp hs).2
    by_contra hcon
    push_neg at hcon
    simp [refineKeep, hD, hcon] at hk
  · intro h
    unfold refineTranscript
    rw [if_neg]
    intro hk
    exact h (by simpa using hk)
  · intro raw refined
    constructor
    · intro h
      unfold cliTxtFinal at h
      by_contra hcon
      rw [if_neg hcon] at h
      exact h rfl
    · intro h
      unfold cliTxtFinal
      rw [if_pos h]
      exact h.2

theorem c5_refine_trimming_witness :
    refineTranscript [⟨100, 2000, " hi "⟩, ⟨5400, 6000, "late"⟩] 300 5000 "raw" = "hi" :=
  ((c5_refine_trimming [⟨100, 2000, " hi "⟩, ⟨5400, 6000, "late"⟩] 300 5000 "raw"
    (by decide)).2.2.1 (by decide)).trans (by decide)

/-- C1, counterexample: the claim states that after the worker processes a
segment with a non-empty transcript, segment_NNN_summary.md and
rolling_summary.md are written.  Processing one non-empty segment with a
successful tagged response writes only batch_000_summary.md: the worker calls
summarize with segment_path None, so no per-segment or rolling summary file is
ever written, although the in-memory rolling text is updated. -/
theorem c1_counterexample :
    (workerRun 1 [⟨"hello world", "0"⟩] [Except.ok tagResp]).writes.map (fun w => w.path) =
      [batchName 0] ∧
    "rolling_summary.md" ∉
      (workerRun 1 [⟨"hello world", "0"⟩] [Except.ok tagResp]).writes.map (fun w => w.path) ∧
    (workerRun 1 [⟨"hello world", "0"⟩] [Except.ok tagResp]).rolling = some "roll one" := by
  decide

/-- C1 as amended: with batch size 1 (the default), processing k+1 jobs with
non-empty transcripts and successful summarizer responses updates the
in-memory rolling summary exactly k+1 times and writes exactly the files
batch_000..batch_k _summary.md; rolling_summary.md (and the per-segment
summary files) are never written because the worker passes a null segment
path to summarize. -/
theorem c1_rolling_updates (jobs : List Job) (oracles : List (Except Unit String))
    (hlen : jobs.length = oracles.length)
    (hne : ∀ j ∈ jobs, pyStrip j.transcript ≠ "")
    (hok : ∀ o ∈ oracles, ∃ s, o = Except.ok s) :
    (workerRun 1 jobs oracles).updates = jobs.length ∧
    (workerRun 1 jobs oracles).writes.map (fun w => w.path) =
      (List.range jobs.length).map batchName ∧
    ∀ w ∈ (workerRun 1 jobs oracles).writes, w.path ≠ "rolling_summary.md" := by
  obtain ⟨hu, hw, _⟩ := workerSteps_one jobs oracles WState.init hlen hne hok
  refine ⟨?_, ?_, ?_⟩
  · simpa [WState.init, workerRun] using hu
  · rw [workerRun, hw]
    simp [WState.init]
  · intro w hwmem
    obtain ⟨⟨k, hk⟩, _⟩ := workerRun_writes_inv 1 jobs oracles w hwmem
    rw [hk]
    exact batchName_ne_rolling k

theorem c1_rolling_updates_witness :
    (workerRun 1 [⟨"hello world", "0"⟩, ⟨"more talk", "1"⟩]
      [Except.ok tagResp, Except.ok "second response"]).updates = 2 :=
  (c1_rolling_updates [⟨"hello world", "0"⟩, ⟨"more talk", "1"⟩]
    [Except.ok tagResp, Except.ok "second response"] rfl
    (by intro j hj
        simp only [List.mem_cons, List.not_mem_nil, or_false] at hj
        rcases hj with h | h <;> (subst h; decide))
    (by intro o ho
        simp only [List.mem_cons, List.not_mem_nil, or_false] at ho
        rcases ho with h | h
        · exact ⟨tagResp, h⟩
        · exact ⟨"second response", h⟩)).1

/-- C2: when the worker holds buffered batch summaries at drain and the
final synthesis succeeds with a non-empty digest, the `final_summary.md` on
disk after `stop_recording` returns is exactly that digest; and the
rolling-summary copy in `stop_recording` never fires, because after any worker
run `rolling_summary.md` is not on disk (so the rolling summary is the final
summary in no batching run at all — in particular only, vacuously, when no
batch summaries were buffered). -/
theorem c2_final_summary_is_digest (bs : Nat) (jobs : List Job)
    (oracles : List (Except Unit String)) (ts : List String) (r : String)
    (hbatch : (workerRun bs jobs oracles).batchSummaries ≠ []) (_hr : pyStrip r ≠ "") :
    fileGet (stopRecordingWrites (workerRun bs jobs oracles).writes ts
        (workerRun bs jobs oracles).batchSummaries (Except.ok r)) "final_summary.md" =
      some (pyStrip r ++ "\n") ∧
    fileGet ((workerRun bs jobs oracles).writes ++ drainWrites ts
        (workerRun bs jobs oracles).batchSummaries (Except.ok r)) "rolling_summary.md" = none := by
  have hroll : fileGet ((workerRun bs jobs oracles).writes ++ drainWrites ts
      (workerRun bs jobs oracles).batchSummaries (Except.ok r)) "rolling_summary.md" = none := by
    apply fileGet_none_of_paths
    intro w hw
    rcases List.mem_append.mp hw with h | h
    · obtain ⟨⟨k, hk⟩, _⟩ := workerRun_writes_inv bs jobs oracles w h
      rw [hk]
      exact batchName_ne_rolling k
    · rcases (drainWrites_paths _ _ _ w h).1 with hp | hp <;> (rw [hp]; decide)
  refine ⟨?_, hroll⟩
  simp only [stopRecordingWrites]
  rw [hroll]
  simp only [List.append_nil]
  have hdw : drainWrites ts (workerRun bs jobs oracles).batchSummaries (Except.ok r) =
      [⟨"final_transcript.txt", finalTranscriptTxt ts, .direct⟩] ++
        [⟨"final_summary.md", pyStrip r ++ "\n", .direct⟩] := by
    unfold drainWrites
    rw [if_pos hbatch]
  rw [hdw, ← List.append_assoc]
  exact fileGet_concat_eq _ _ _ rfl

theorem c2_final_summary_is_digest_witness :
    fileGet (stopRecordingWrites (workerRun 1 [⟨"hello world", "0"⟩] [Except.ok tagResp]).writes
        ["hello world"] (workerRun 1 [⟨"hello world", "0"⟩] [Except.ok tagResp]).batchSummaries
        (Except.ok "the digest")) "final_summary.md" = some ("the digest" ++ "\n") :=
  (c2_final_summary_is_digest 1 [⟨"hello world", "0"⟩] [Except.ok tagResp]
    ["hello world"] "the digest" (by decide) (by decide)).1.trans (by decide)

/-- C8, counterexample: the claim states `final_transcript.txt` exists iff at
least one transcript was produced.  In a session that produced no transcript
at all, `generate_final_transcript` still writes the file (with a bare
newline), so it exists. -/
theorem c8_counterexample :
    fileGet (stopRecordingWrites (workerRun 1 [] []).writes []
        (workerRun 1 [] []).batchSummaries (Except.error ())) "final_transcript.txt" =
      some "\n" := by
  decide

/-- C8 as amended: when the drain loop exits with the pipeline still running,
both queues are empty and both busy flags are false (in the sequential model
of the polling guard); and after `stop_recording` returns,
`final_transcript.txt` always exists, holding the blank-line join of the
per-segment transcripts — unconditionally, even when no transcript was
produced. -/
theorem c8_drain_completeness :
    (∀ fuel st st', drainLoop fuel st = some st' → st'.running = true →
       st'.txQueue = [] ∧ st'.sumQueue = [] ∧ st'.txBusy = false ∧ st'.sumBusy = false) ∧
    (∀ (bs : Nat) (jobs : List Job) (oracles : List (Except Unit String))
       (ts : List String) (synth : Except Unit String),
       fileGet (stopRecordingWrites (workerRun bs jobs oracles).writes ts
           (workerRun bs jobs oracles).batchSummaries synth) "final_transcript.txt" =
         some (finalTranscriptTxt ts)) := by
  constructor
  · intro fuel
    induction fuel with
    | zero => intro st st' h; simp [drainLoop] at h
    | succ n ih =>
      intro st st' h hrun
      rw [drainLoop] at h
      split at h
      · exact ih _ _ h hrun
      · rename_i hguard
        obtain rfl : st = st' := by simpa using h
        have hg2 : ¬(st.txBusy = true ∨ st.sumBusy = true ∨
            st.txQueue ≠ [] ∨ st.sumQueue ≠ []) := fun hcon => hguard ⟨hrun, hcon⟩
        push_neg at hg2
        obtain ⟨h1, h2, h3, h4⟩ := hg2
        exact ⟨h3, h4, by simpa using h1, by simpa using h2⟩
  · intro bs jobs oracles ts synth
    have hww : ∀ w ∈ (workerRun bs jobs oracles).writes, w.path ≠ "final_transcript.txt" := by
      intro w hw
      obtain ⟨⟨k, hk⟩, _⟩ := workerRun_writes_inv bs jobs oracles w hw
      rw [hk]
      exact batchName_ne_final_transcript k
    unfold stopRecordingWrites
    have hdrain : drainWrites ts (workerRun bs jobs oracles).batchSummaries synth =
        [⟨"final_transcript.txt", finalTranscriptTxt ts, .direct⟩] ++
          (if (workerRun bs jobs oracles).batchSummaries ≠ [] then
             match synth with
             | .ok r => [⟨"final_summary.md", pyStrip r ++ "\n", .direct⟩]
             | .error _ => []
           else []) := rfl
    set tailW := (if (workerRun bs jobs oracles).batchSummaries ≠ [] then
        match synth with
        | Except.ok r => [(⟨"final_summary.md", pyStrip r ++ "\n", .direct⟩ : FWrite)]
        | Except.error _ => []
      else []) with htail
    have htailp : ∀ w ∈ tailW, w.path ≠ "final_transcript.txt" := by
      intro w hw
      rw [htail] at hw
      split at hw
      · split at hw
        · simp only [List.mem_singleton] at hw
          subst hw
          show ("final_summary.md" : String) ≠ "final_transcript.txt"
          decide
        · simp at hw
      · simp at hw
    have hcopy : ∀ w ∈ (match fileGet ((workerRun bs jobs oracles).writes ++
        drainWrites ts (workerRun bs jobs oracles).batchSummaries synth)
          "rolling_summary.md" with
        | some c => [(⟨"final_summary.md", c, .direct⟩ : FWrite)]
        | none => []), w.path ≠ "final_transcript.txt" := by
      intro w hw
      split at hw
      · simp only [List.mem_singleton] at hw
        subst hw
        show ("final_summary.md" : String) ≠ "final_transcript.txt"
        decide
      · simp at hw
    rw [fileGet_append_right_none _ _ _ hcopy, hdrain, ← List.append_assoc,
      fileGet_append_right_none _ _ _ htailp]
    exact fileGet_concat_eq _ _ _ rfl

theorem c8_drain_completeness_witness :
    ((⟨true, false, false, [], []⟩ : PipeState).txQueue = [] ∧
       (⟨true, false, false, [], []⟩ : PipeState).sumQueue = [] ∧
       (⟨true, false, false, [], []⟩ : PipeState).txBusy = false ∧
       (⟨true, false, false, [], []⟩ : PipeState).sumBusy = false) ∧
    fileGet (stopRecordingWrites (workerRun 1 [⟨"hi", "0"⟩] [Except.ok "resp"]).writes
        ["hi there"] (workerRun 1 [⟨"hi", "0"⟩] [Except.ok "resp"]).batchSummaries
        (Except.ok "dg")) "final_transcript.txt" = some "hi there\n" :=
  ⟨c8_drain_completeness.1 3 ⟨true, false, false, ["s0"], []⟩ ⟨true, false, false, [], []⟩
      (by decide) rfl,
   (c8_drain_completeness.2 1 [⟨"hi", "0"⟩] [Except.ok "resp"] ["hi there"]
      (Except.ok "dg")).trans (by decide)⟩

/-- C9, counterexample: the claim states every artifact write is performed as
create-to-temporary-then-rename.  The very first artifact write of the
drain/stop sequence (final_transcript.txt) — like all writes in the sources —
is a direct in-place open-and-write. -/
theorem c9_counterexample :
    (stopRecordingWrites [] ["t"] ["b"] (Except.ok "r")).map (fun w => w.method) =
      [WMethod.direct, WMethod.direct] ∧
    (sessionMetadataWrite "meta").method = WMethod.direct ∧
    WMethod.direct ≠ WMethod.tempRename := by
  decide

/-- C9 as amended: every artifact write of the pipeline (worker batch
summaries, drain-time final transcript and final summary, the rolling-summary
copy, and the session metadata) opens the target path directly and writes in
place; no temporary-file-then-rename step exists. -/
theorem c9_writes_direct (bs : Nat) (jobs : List Job)
    (oracles : List (Except Unit String)) (ts : List String)
    (synth : Except Unit String) (meta : String) :
    (∀ w ∈ stopRecordingWrites (workerRun bs jobs oracles).writes ts
        (workerRun bs jobs oracles).batchSummaries synth, w.method = WMethod.direct) ∧
    (sessionMetadataWrite meta).method = WMethod.direct := by
  refine ⟨?_, rfl⟩
  intro w hw
  unfold stopRecordingWrites at hw
  rcases List.mem_append.mp hw with h | h
  · rcases List.mem_append.mp h with h | h
    · exact (workerRun_writes_inv bs jobs oracles w h).2
    · exact (drainWrites_paths _ _ _ w h).2
  · split at h
    · simp only [List.mem_singleton] at h
      subst h
      rfl
    · simp at h

theorem c9_writes_direct_witness :
    FWrite.method ⟨"final_transcript.txt", "\n", WMethod.direct⟩ = WMethod.direct :=
  (c9_writes_direct 1 [] [] [] (Except.error ()) "m").1
    ⟨"final_transcript.txt", "\n", WMethod.direct⟩ (by decide)

/-- C6, counterexample: the claim states that when the ROLLING_SUMMARY tag is
absent the prior rolling text is retained.  With no prior rolling text and an
untagged response, the worker sets the rolling text to the whole response
instead of retaining the (empty) prior. -/
theorem c6_counterexample :
    extractTag "plain answer" "ROLLING_SUMMARY" = "" ∧
    (summarize none none none "hello" (Except.ok "plain answer")).rolling =
      some "plain answer" ∧
    ("plain answer" : String) ≠ (none : Option String).getD "" := by
  decide

/-- C6 as amended: a response holding exactly one occurrence of a tag pair
yields exactly the trimmed text between the tags (case-insensitively, across
newlines); when the ROLLING_SUMMARY tag is absent and a non-empty prior
rolling text exists it is retained; when the SEGMENT_SUMMARY tag is absent
the entire raw response becomes the segment summary; and when the
ROLLING_SUMMARY tag is absent with no prior rolling text, the rolling text is
set to the (non-empty) segment summary rather than retained. -/
theorem c6_tagged_response_parsing :
    (∀ (text tag : String) (i j : Nat),
       strFindAll (tagOpenChars tag) (text.data.map Char.toLower) = [i] →
       strFindAll (tagCloseChars tag) (text.data.map Char.toLower) = [j] →
       i + (tagOpenChars tag).length ≤ j →
       extractTag text tag =
         ⟨pyStripList ((text.data.drop (i + (tagOpenChars tag).length)).take
           (j - (i + (tagOpenChars tag).length)))⟩) ∧
    (∀ (rolling sp si : Option String) (t resp : String), pyStrip t ≠ "" →
       extractTag resp "ROLLING_SUMMARY" = "" → rolling.getD "" ≠ "" →
       (summarize rolling sp si t (Except.ok resp)).rolling = some (rolling.getD "")) ∧
    (∀ (rolling sp si : Option String) (t resp : String), pyStrip t ≠ "" →
       extractTag resp "SEGMENT_SUMMARY" = "" →
       (summarize rolling sp si t (Except.ok resp)).ret = resp) ∧
    (∀ (rolling sp si : Option String) (t resp : String), pyStrip t ≠ "" →
       extractTag resp "ROLLING_SUMMARY" = "" → rolling.getD "" = "" → resp ≠ "" →
       (summarize rolling sp si t (Except.ok resp)).rolling =
         some ((summarize rolling sp si t (Except.ok resp)).ret) ∧
       (summarize rolling sp si t (Except.ok resp)).ret ≠ "") := by
  refine ⟨extractTag_single, ?_, ?_, ?_⟩
  · intro rolling sp si t resp ht hR hprev
    rw [summarize_ok_eq rolling sp si t resp ht]
    exact summarizeOk_rolling_retained rolling sp si resp hR hprev
  · intro rolling sp si t resp ht hS
    rw [summarize_ok_eq rolling sp si t resp ht]
    exact summarizeOk_seg_fallback rolling sp si resp hS
  · intro rolling sp si t resp ht hR hprev hresp
    rw [summarize_ok_eq rolling sp si t resp ht]
    exact summarizeOk_no_prior rolling sp si resp hR hprev hresp

theorem c6_tagged_response_parsing_witness :
    extractTag tagResp "ROLLING_SUMMARY" = "roll one" ∧
    (summarize (some "prior roll") none none "hi" (Except.ok "no tags at all")).rolling =
      some "prior roll" :=
  ⟨(c6_tagged_response_parsing.1 tagResp "ROLLING_SUMMARY" 0 29 (by decide) (by decide)
      (by decide)).trans (by decide),
   c6_tagged_response_parsing.2.1 (some "prior roll") none none "hi" "no tags at all"
     (by decide) (by decide) (by decide)⟩

/-- C7, counterexample: the claim states a text-shaped response spanning only
part of the audio triggers the truncation retry.  A text-only response over a
10 s segment never triggers the retry: the code fabricates a single segment
spanning the whole WAV duration, so the truncation heuristic cannot fire, the
retry is skipped, and the short text is kept even though a longer retry
result was available. -/
theorem c7_counterexample :
    (transcribeWithServer (ServerResp.text "hello") 10000 300
      (some (ServerResp.text "a longer full transcript"))).retried = false ∧
    (transcribeWithServer (ServerResp.text "hello") 10000 300
      (some (ServerResp.text "a longer full transcript"))).ret = "hello" := by
  decide

/-- C7 as amended: for a segments-shaped response whose (pre-roll-adjusted)
last timestamp ends more than 3 s before the WAV duration, exactly one retry
with minimal parameters is issued, and the retry text replaces the refined
text exactly when it is strictly longer; a text-shaped response with the
default-scale pre-roll (≤ 3 s) never triggers the retry, because its
fabricated single segment spans the full WAV duration. -/
theorem c7_truncation_retry :
    (∀ (t : String) (wav pt : Nat) (retry : Option ServerResp), pt ≤ 3000 →
       (transcribeWithServer (ServerResp.text t) wav pt retry).retried = false) ∧
    (∀ (l : List SubSeg) (wav pt : Nat) (rr : ServerResp),
       (l.filter (fun s => pyStrip s.text ≠ "")).map
           (fun s => (⟨s.t0, s.t1, pyStrip s.text⟩ : SubSeg)) ≠ [] →
       wav ≠ 0 →
       ((((l.filter (fun s => pyStrip s.text ≠ "")).map
           (fun s => (⟨s.t0, s.t1, pyStrip s.text⟩ : SubSeg))).map
             (fun s => s.t1)).max?.getD 0 - pt) ≠ 0 →
       ((((l.filter (fun s => pyStrip s.text ≠ "")).map
           (fun s => (⟨s.t0, s.t1, pyStrip s.text⟩ : SubSeg))).map
             (fun s => s.t1)).max?.getD 0 - pt) + 3000 < wav →
       (transcribeWithServer (ServerResp.segs l) wav pt (some rr)).retried = true ∧
       (transcribeWithServer (ServerResp.segs l) wav pt (some rr)).ret =
         (let segList := (l.filter (fun s => pyStrip s.text ≠ "")).map
            (fun s => (⟨s.t0, s.t1, pyStrip s.text⟩ : SubSeg));
          let raw0 := String.intercalate "\n" (segList.map (fun s => s.text));
          let refined := refineTranscript segList pt wav raw0;
          let raw1 := if segList ≠ [] ∧ refined ≠ "" ∧ refined ≠ raw0 then refined else raw0;
          if retryText rr ≠ "" ∧ raw1.length < (retryText rr).length then retryText rr
          else raw1)) := by
  constructor
  · intro t wav pt retry hpt
    by_cases hts : pyStrip t ≠ ""
    · simp only [transcribeWithServer, if_pos hts]
      rw [if_pos (by simp : ([(⟨0, wav, pyStrip t⟩ : SubSeg)] : List SubSeg) ≠ [])]
      rw [if_neg]
      intro hcon
      obtain ⟨h1, h2, h3⟩ := hcon
      simp only [List.map_cons, List.map_nil, List.max?, List.foldl, Option.getD_some] at h2 h3
      omega
    · simp only [transcribeWithServer, if_neg hts]
      rw [if_neg (by simp)]
  · intro l wav pt rr h1 h2 h3 h4
    constructor
    · simp only [transcribeWithServer]
      rw [if_pos h1, if_pos ⟨h2, h3, h4⟩, apply_ite ServerOut.retried]
      simp
    · simp only [transcribeWithServer]
      rw [if_pos h1, if_pos ⟨h2, h3, h4⟩, apply_ite ServerOut.ret]

theorem c7_truncation_retry_witness :
    (transcribeWithServer (ServerResp.text "short text") 10000 300 none).retried = false ∧
    (transcribeWithServer (ServerResp.segs [⟨0, 5000, "part one"⟩]) 10000 300
      (some (ServerResp.text "a much longer full transcript"))).retried = true ∧
    (transcribeWithServer (ServerResp.segs [⟨0, 5000, "part one"⟩]) 10000 300
      (some (ServerResp.text "a much longer full transcript"))).ret =
      "a much longer full transcript" :=
  ⟨c7_truncation_retry.1 "short text" 10000 300 none (by decide),
   (c7_truncation_retry.2 [⟨0, 5000, "part one"⟩] 10000 300
      (ServerResp.text "a much longer full transcript") (by decide) (by decide) (by decide)
      (by decide)).1,
   ((c7_truncation_retry.2 [⟨0, 5000, "part one"⟩] 10000 300
      (ServerResp.text "a much longer full transcript") (by decide) (by decide) (by decide)
      (by decide)).2).trans (by decide)⟩

/-! Stable-file gate lemmas (towards C4) -/

theorem waitAux_never_min (fs probe : Nat → Option Nat) (minSize stableT expectedMs : Nat)
    (isSeg : Bool) (h : ∀ u sz, fs u = some sz → sz < minSize) :
    ∀ fuel t lastSize stableSince,
      waitAux fs probe minSize stableT expectedMs isSeg fuel t lastSize stableSince =
        (false, t + fuel) := by
  intro fuel
  induction fuel with
  | zero => intro t ls ss; rfl
  | succ n ih =>
    intro t ls ss
    have hstep : waitAux fs probe minSize stableT expectedMs isSeg (n + 1) t ls ss =
        waitBody fs probe minSize stableT expectedMs isSeg
          (waitAux fs probe minSize stableT expectedMs isSeg n) t ls ss := rfl
    rw [hstep]
    cases hfs : fs t with
    | none =>
      simp only [waitBody, hfs]
      rw [ih]
      congr 1
      omega
    | some size =>
      simp only [waitBody, hfs]
      rw [if_pos (h t size hfs), ih]
      congr 1
      omega

theorem waitAux_plateau_inner (fs probe : Nat → Option Nat)
    (minSize stableT expectedMs S T : Nat)
    (hS : minSize ≤ S) (hplat : ∀ u, T ≤ u → fs u = some S) :
    ∀ fuel t s0, T ≤ t → s0 ≤ t → s0 + stableT + 1 ≤ t + fuel → 1 ≤ fuel →
      (waitAux fs probe minSize stableT expectedMs false fuel t (some S) (some s0)).1 =
        true := by
  intro fuel
  induction fuel with
  | zero =>
    intro t s0 _ _ _ hf
    exact absurd hf (by omega)
  | succ n ih =>
    intro t s0 hT hs0 hbud _
    have hstep : waitAux fs probe minSize stableT expectedMs false (n + 1) t
        (some S) (some s0) =
        waitBody fs probe minSize stableT expectedMs false
          (waitAux fs probe minSize stableT expectedMs false n) t (some S) (some s0) := rfl
    rw [hstep]
    simp only [waitBody, hplat t hT]
    rw [if_neg (not_lt.mpr hS)]
    by_cases hst : stableT ≤ t - s0
    · simp [hst]
    · simp [hst]
      exact ih (t + 1) s0 (by omega) (by omega) (by omega) (by omega)

theorem waitAux_plateau_fresh (fs probe : Nat → Option Nat)
    (minSize stableT expectedMs S T : Nat)
    (hS : minSize ≤ S) (hplat : ∀ u, T ≤ u → fs u = some S) :
    ∀ fuel t, T ≤ t → stableT + 2 ≤ fuel →
      (waitAux fs probe minSize stableT expectedMs false fuel t (some S) none).1 = true := by
  intro fuel
  cases fuel with
  | zero =>
    intro t _ hf
    exact absurd hf (by omega)
  | succ n =>
    intro t hT hf
    have hstep : waitAux fs probe minSize stableT expectedMs false (n + 1) t
        (some S) none =
        waitBody fs probe minSize stableT expectedMs false
          (waitAux fs probe minSize stableT expectedMs false n) t (some S) none := rfl
    rw [hstep]
    simp only [waitBody, hplat t hT]
    rw [if_neg (not_lt.mpr hS)]
    simp
    exact waitAux_plateau_inner fs probe minSize stableT expectedMs S T hS hplat n (t + 1) t
      (by omega) (by omega) (by omega) (by omega)

theorem waitAux_plateau_pre (fs probe : Nat → Option Nat)
    (minSize stableT expectedMs S T : Nat)
    (hS : minSize ≤ S) (hplat : ∀ u, T ≤ u → fs u = some S) :
    ∀ fuel t ls ss, (∀ s0, ss = some s0 → s0 ≤ t) → t ≤ T →
      T + stableT + 3 ≤ t + fuel →
      (waitAux fs probe minSize stableT expectedMs false fuel t ls ss).1 = true := by
  intro fuel
  induction fuel with
  | zero =>
    intro t ls ss _ hT hbud
    exact absurd hbud (by omega)
  | succ n ih =>
    intro t ls ss hss hT hbud
    have hstep : waitAux fs probe minSize stableT expectedMs false (n + 1) t ls ss =
        waitBody fs probe minSize stableT expectedMs false
          (waitAux fs probe minSize stableT expectedMs false n) t ls ss := rfl
    rw [hstep]
    rcases Nat.lt_or_ge t T with htT | htT
    · -- prefix phase: any observation; every arm either returns true or recurses
      cases hfs : fs t with
      | none =>
        simp only [waitBody, hfs]
        exact ih (t + 1) ls ss (fun s0 h => le_trans (hss s0 h) (by omega)) (by omega)
          (by omega)
      | some size =>
        simp only [waitBody, hfs]
        by_cases hmin : size < minSize
        · rw [if_pos hmin]
          exact ih (t + 1) ls ss (fun s0 h => le_trans (hss s0 h) (by omega)) (by omega)
            (by omega)
        · rw [if_neg hmin]
          by_cases hmatch : ls = some size
          · cases ss with
            | none =>
              simp [hmatch]
              exact ih (t + 1) (some size) (some t)
                (by intro s0 h; injection h with h2; omega) (by omega) (by omega)
            | some s0 =>
              by_cases hst : stableT ≤ t - s0
              · simp [hmatch, hst]
              · simp [hmatch, hst]
                exact ih (t + 1) (some size) (some s0)
                  (by intro x hx
                      injection hx with h2
                      have h3 := hss s0 rfl
                      omega)
                  (by omega) (by omega)
          · simp [hmatch]
            exact ih (t + 1) (some size) none (by intro s0 h; cases h) (by omega) (by omega)
    · -- t = T: the plateau has begun
      have hteq : t = T := le_antisymm hT htT
      subst hteq
      simp only [waitBody, hplat t (le_refl t)]
      rw [if_neg (not_lt.mpr hS)]
      by_cases hmatch : ls = some S
      · cases ss with
        | none =>
          simp [hmatch]
          exact waitAux_plateau_inner fs probe minSize stableT expectedMs S t hS hplat n
            (t + 1) t (by omega) (by omega) (by omega) (by omega)
        | some s0 =>
          have hs0 : s0 ≤ t := hss s0 rfl
          by_cases hst : stableT ≤ t - s0
          · simp [hmatch, hst]
          · simp [hmatch, hst]
            exact waitAux_plateau_inner fs probe minSize stableT expectedMs S t hS hplat n
              (t + 1) s0 (by omega) (by omega) (by omega) (by omega)
      · simp [hmatch]
        exact waitAux_plateau_fresh fs probe minSize stableT expectedMs S t hS hplat n
          (t + 1) (by omega) (by omega)

theorem stableAt_of (fs probe : Nat → Option Nat) (minSize stableT expectedMs : Nat)
    (isSeg : Bool) (t s0 size : Nat)
    (hfs : fs t = some size) (hmin : minSize ≤ size) (hs0 : s0 ≤ t)
    (hst : stableT ≤ t - s0) (hfs0 : fs s0 = some size)
    (hhist : ∀ u sz, s0 ≤ u → u < t → fs u = some sz → minSize ≤ sz → sz = size)
    (hprobe : isSeg = true → expectedMs ≠ 0 →
      probe t = none ∨ ∃ d, probe t = some d ∧ expectedMs ≤ d + 2000) :
    StableAt fs probe minSize stableT expectedMs isSeg t := by
  refine ⟨size, hfs, hmin, s0, hs0, hst, hfs0, ?_, hprobe⟩
  intro u sz hu hut hfu hmz
  rcases eq_or_lt_of_le hut with rfl | hlt
  · rw [hfs] at hfu
    injection hfu with h2
    exact h2.symm
  · exact hhist u sz hu hlt hfu hmz

/-- If the gate returns true, the stability conditions of StableAt held at
the returning tick. -/
theorem waitAux_true_stable (fs probe : Nat → Option Nat)
    (minSize stableT expectedMs : Nat) (isSeg : Bool) :
    ∀ fuel t lastSize stableSince te,
      WaitInv fs minSize t lastSize stableSince →
      waitAux fs probe minSize stableT expectedMs isSeg fuel t lastSize stableSince =
        (true, te) →
      StableAt fs probe minSize stableT expectedMs isSeg te := by
  intro fuel
  induction fuel with
  | zero =>
    intro t ls ss te _ h
    exact absurd h (by simp [waitAux])
  | succ n ih =>
    intro t ls ss te hinv h
    have hstep : waitAux fs probe minSize stableT expectedMs isSeg (n + 1) t ls ss =
        waitBody fs probe minSize stableT expectedMs isSeg
          (waitAux fs probe minSize stableT expectedMs isSeg n) t ls ss := rfl
    rw [hstep] at h
    cases hfs : fs t with
    | none =>
      simp only [waitBody, hfs] at h
      refine ih (t + 1) ls ss te ?_ h
      intro s0 hs0
      obtain ⟨h1, L, hL, hm, hf0, hh⟩ := hinv s0 hs0
      refine ⟨by omega, L, hL, hm, hf0, ?_⟩
      intro u sz hu hut hfu hmz
      rcases Nat.lt_or_ge u t with hlt | hge
      · exact hh u sz hu hlt hfu hmz
      · have hut2 : u = t := by omega
        subst hut2
        rw [hfs] at hfu
        cases hfu
    | some size =>
      simp only [waitBody, hfs] at h
      by_cases hmin : size < minSize
      · rw [if_pos hmin] at h
        refine ih (t + 1) ls ss te ?_ h
        intro s0 hs0
        obtain ⟨h1, L, hL, hm, hf0, hh⟩ := hinv s0 hs0
        refine ⟨by omega, L, hL, hm, hf0, ?_⟩
        intro u sz hu hut hfu hmz
        rcases Nat.lt_or_ge u t with hlt | hge
        · exact hh u sz hu hlt hfu hmz
        · have hut2 : u = t := by omega
          subst hut2
          rw [hfs] at hfu
          injection hfu with h2
          subst h2
          exact absurd hmz (by omega)
      · rw [if_neg hmin] at h
        by_cases hmatch : ls = some size
        · cases ss with
          | none =>
            simp only [hmatch] at h
            simp at h
            refine ih (t + 1) (some size) (some t) te ?_ h
            intro s0 hs0
            injection hs0 with h2
            refine ⟨by omega, size, rfl, not_lt.mp hmin, ?_, ?_⟩
            · rw [← h2]
              exact hfs
            · intro u sz hu hut hfu hmz
              have hut2 : u = t := by omega
              subst hut2
              rw [hfs] at hfu
              injection hfu with h3
              exact h3.symm
          | some s0 =>
            obtain ⟨hs0t, L, hL, hm, hf0, hh⟩ := hinv s0 rfl
            have hLsize : L = size := by
              rw [hmatch] at hL
              injection hL with h2
              exact h2.symm
            rw [hLsize] at hm hf0 hh
            by_cases hst : stableT ≤ t - s0
            · -- size_stable: the gate is ready up to the duration probe
              simp only [hmatch, hst] at h
              simp at h
              by_cases hseg : isSeg = true ∧ expectedMs ≠ 0
              · rw [if_pos hseg] at h
                cases hpr : probe t with
                | none =>
                  rw [hpr] at h
                  simp at h
                  subst h
                  exact stableAt_of fs probe minSize stableT expectedMs isSeg t s0 size
                    hfs (not_lt.mp hmin) hs0t hst hf0 hh
                    (fun _ _ => Or.inl hpr)
                | some dur =>
                  rw [hpr] at h
                  by_cases hdur : expectedMs ≤ dur + 2000
                  · simp [hdur] at h
                    subst h
                    exact stableAt_of fs probe minSize stableT expectedMs isSeg t s0 size
                      hfs (not_lt.mp hmin) hs0t hst hf0 hh
                      (fun _ _ => Or.inr ⟨dur, hpr, hdur⟩)
                  · simp [hdur] at h
                    exact ih (t + 1) (some size) none te (by intro x hx; cases hx) h
              · rw [if_neg hseg] at h
                by_cases hIs : isSeg = true
                · rw [if_pos hIs] at h
                  refine ih (t + 1) (some size) (some s0) te ?_ h
                  intro s0x hs0x
                  injection hs0x with h2
                  subst h2
                  refine ⟨by omega, size, rfl, hm, hf0, ?_⟩
                  intro u sz hu hut hfu hmz
                  rcases Nat.lt_or_ge u t with hlt | hge
                  · exact hh u sz hu hlt hfu hmz
                  · have hut2 : u = t := by omega
                    subst hut2
                    rw [hfs] at hfu
                    injection hfu with h3
                    exact h3.symm
                · rw [if_neg hIs] at h
                  simp at h
                  subst h
                  refine stableAt_of fs probe minSize stableT expectedMs isSeg t s0 size
                    hfs (not_lt.mp hmin) hs0t hst hf0 hh ?_
                  intro hcon
                  exact absurd hcon hIs
            · -- dwell not yet reached: continue with the same stable_since
              simp only [hmatch, hst] at h
              simp at h
              refine ih (t + 1) (some size) (some s0) te ?_ h
              intro s0x hs0x
              injection hs0x with h2
              subst h2
              refine ⟨by omega, size, rfl, hm, hf0, ?_⟩
              intro u sz hu hut hfu hmz
              rcases Nat.lt_or_ge u t with hlt | hge
              · exact hh u sz hu hlt hfu hmz
              · have hut2 : u = t := by omega
                subst hut2
                rw [hfs] at hfu
                injection hfu with h3
                exact h3.symm
        · -- size changed: stable_since resets
          simp [hmatch] at h
          exact ih (t + 1) (some size) none te (by intro x hx; cases hx) h

/-- C4, counterexample: the claim states the gate returns true only when the
size has been unchanged for ≥ stable_time.  With min_size 1024, stable_time 2
ticks (0.4 s) and a file that reads 2000, 2000, 5, 2000 bytes at ticks
0,1,2,3, the gate returns true at tick 3: the dwell tracker is not updated by
polls whose size is below min_size, so the dip to 5 bytes inside the dwell
window [1,3] goes unnoticed. -/
theorem c4_counterexample :
    waitForStableFile fsDip (fun _ => none) 1024 2 10 0 false = (true, 3) ∧
    fsDip 1 = some 2000 ∧ fsDip 2 = some 5 ∧ fsDip 3 = some 2000 ∧ ¬(1024 ≤ 5) := by
  decide

/-- C4 as amended: (i) the gate returns true only when, at the returning
poll, the file exists with size ≥ min_size, the same size was observed at
every poll with size ≥ min_size throughout a dwell window of length ≥
stable_time (polls below min_size or with the file absent are not consulted
by the dwell tracker), and — for segment files with an expected duration —
the probe failed or reported a duration within 2 s of expected; (ii) for a
file that from some tick on constantly shows a size ≥ min_size (and no
duration check applies), the gate returns true within the timeout, given
slack for the dwell; (iii) for a file that never reaches min_size the gate
returns false exactly at the timeout tick. -/
theorem c4_stable_gate :
    (∀ (fs probe : Nat → Option Nat) (minSize stableT timeoutT expectedMs : Nat)
       (isSeg : Bool) (te : Nat),
       waitForStableFile fs probe minSize stableT timeoutT expectedMs isSeg = (true, te) →
       StableAt fs probe minSize stableT expectedMs isSeg te) ∧
    (∀ (fs probe : Nat → Option Nat) (minSize stableT timeoutT expectedMs S T : Nat),
       minSize ≤ S → (∀ u, T ≤ u → fs u = some S) → T + stableT + 3 ≤ timeoutT →
       (waitForStableFile fs probe minSize stableT timeoutT expectedMs false).1 = true) ∧
    (∀ (fs probe : Nat → Option Nat) (minSize stableT timeoutT expectedMs : Nat)
       (isSeg : Bool),
       (∀ u sz, fs u = some sz → sz < minSize) →
       waitForStableFile fs probe minSize stableT timeoutT expectedMs isSeg =
         (false, timeoutT)) := by
  refine ⟨?_, ?_, ?_⟩
  · intro fs probe minSize stableT timeoutT expectedMs isSeg te h
    exact waitAux_true_stable fs probe minSize stableT expectedMs isSeg timeoutT 0 none none
      te (by intro s0 hs0; cases hs0) h
  · intro fs probe minSize stableT timeoutT expectedMs S T hS hplat hbud
    exact waitAux_plateau_pre fs probe minSize stableT expectedMs S T hS hplat timeoutT 0
      none none (by intro s0 hs0; cases hs0) (by omega) (by omega)
  · intro fs probe minSize stableT timeoutT expectedMs isSeg h
    have h2 := waitAux_never_min fs probe minSize stableT expectedMs isSeg h timeoutT 0
      none none
    simpa using h2

theorem c4_stable_gate_witness :
    StableAt (fun _ => some 100) (fun _ => none) 16 2 0 false 3 ∧
    (waitForStableFile (fun _ => some 100) (fun _ => none) 16 2 10 0 false).1 = true ∧
    waitForStableFile (fun _ => some 5) (fun _ => none) 1024 2 10 0 false = (false, 10) :=
  ⟨c4_stable_gate.1 (fun _ => some 100) (fun _ => none) 16 2 10 0 false 3 (by decide),
   c4_stable_gate.2.1 (fun _ => some 100) (fun _ => none) 16 2 10 0 100 0 (by decide)
     (fun _ _ => rfl) (by decide),
   c4_stable_gate.2.2 (fun _ => some 5) (fun _ => none) 1024 2 10 0 false
     (by intro u sz hu; injection hu with h2; omega)⟩

end MRATS
